import Mathlib

/-!
Formal model of the `ferrous-systems/dnssec-tests` repository.

Rust `&str` values are modelled as `List Char`; the byte-wise ordering Rust
uses to compare `&str` values is modelled by `ltChars`, which is the
lexicographic order on characters (UTF-8 byte order and code-point order
agree).  Rust panics (`unwrap`, `assert!`, `unreachable!`, `unimplemented!`,
out-of-bounds slicing) are modelled as `Option`/`Except` error values, so that
a function which may panic returns `none` (or a dedicated error constructor)
exactly on the panicking inputs.
-/

namespace Rfc5155

/-- Byte-wise comparison of two strings, as Rust's `Ord for str` performs it.
For UTF-8 encoded text, byte order and code-point order coincide, so this is
the lexicographic order on the character lists. -/
def ltChars : List Char → List Char → Bool
  | [], [] => false
  | [], _ :: _ => true
  | _ :: _, [] => false
  | a :: as, b :: bs =>
    if a < b then true
    else if b < a then false
    else ltChars as bs

/-- Model of `slice::binary_search` from the Rust core library, which the
test file calls on the sorted `Vec<&str>` of hashes: repeatedly halve the
window `[left, right)` around `mid = left + size / 2`; `Except.ok` is
`Ok(index)` (needle found at `index`), `Except.error` is `Err(index)` (the
insertion point).  The fuel argument is an upper bound on the number of
iterations; the caller passes the initial window size, which suffices because
the window shrinks by at least one element per iteration. -/
def binarySearchAux (t : List (List Char)) (needle : List Char) :
    Nat → Nat → Nat → Except Nat Nat
  | 0, left, _ => Except.error left
  | fuel + 1, left, right =>
    if left < right then
      if ltChars (t.getD (left + (right - left) / 2) []) needle then
        binarySearchAux t needle fuel (left + (right - left) / 2 + 1) right
      else if ltChars needle (t.getD (left + (right - left) / 2) []) then
        binarySearchAux t needle fuel left (left + (right - left) / 2)
      else
        Except.ok (left + (right - left) / 2)
    else
      Except.error left

/-- Model of `haystack.binary_search(&needle)` over the whole slice. -/
def binary_search (haystack : List (List Char)) (needle : List Char) :
    Except Nat Nat :=
  binarySearchAux haystack needle haystack.length 0 haystack.length

/-- Model of `find_prev` from `rfc5155.rs`: index of the element immediately
previous to `needle` in `haystack`.  The `assert!(!haystack.is_empty())`
panic is modelled by returning `none` on an empty haystack; the
`let (Ok(index) | Err(index))` or-pattern collapses both results of the
binary search into one index. -/
def find_prev (needle : List Char) (haystack : List (List Char)) : Option Nat :=
  if haystack.isEmpty then none
  else
    match
      (match binary_search haystack needle with
        | Except.ok index => index
        | Except.error index => index) with
    | 0 => some (haystack.length - 1)
    | index + 1 => some index

/-- Model of `find_next` from `rfc5155.rs`: index of the element immediately
next to `needle` in `haystack`, computed as `(index + 1) % haystack.len()`.
The `assert!` panic on an empty haystack is modelled by `none`. -/
def find_next (needle : List Char) (haystack : List (List Char)) : Option Nat :=
  if haystack.isEmpty then none
  else
    some
      (((match binary_search haystack needle with
          | Except.ok index => index
          | Except.error index => index) + 1) % haystack.length)

/-- An NSEC3 record as the test observes it in a response: the owner FQDN
(as its list of labels), the next hashed owner name, the hash algorithm, the
salt, and the iteration count. -/
structure NSEC3 where
  fqdn : List (List Char)
  next_hashed_owner_name : List Char
  hash_alg : Nat
  salt : List Char
  iterations : Nat
  deriving DecidableEq

/-- Model of `covers` from `rfc5155.rs`:
`record.next_hashed_owner_name.as_str() > hash && record.fqdn.labels().next().unwrap().to_uppercase().as_str() < hash`.
The conjunction is short-circuiting, so the `unwrap()` panic on an FQDN with
no labels (modelled by `none`) is reached only when the first conjunct holds.
Rust's `to_uppercase` on the ASCII base32 labels is `Char.toUpper` on each
character. -/
def covers (record : NSEC3) (hash : List Char) : Option Bool :=
  if ltChars hash record.next_hashed_owner_name then
    match record.fqdn.head? with
    | none => none
    | some owner => some (ltChars (owner.map Char.toUpper) hash)
  else
    some false

/-- The covering relation as the specification words it, for comparison with
the code's `covers`: strict on both bounds, except that when
`next_hashed_owner_name < owner_hash` (the interval spans the table boundary)
the relation inverts and the hash is covered when it lies above the owner
hash or below the next hashed owner name. -/
def coversSpec (ownerHash hash next : List Char) : Bool :=
  if ltChars next ownerHash then
    ltChars ownerHash hash || ltChars hash next
  else
    ltChars ownerHash hash && ltChars hash next

/-- A record of a response section: either an NSEC3 record or any other
record type (the test's `filter_map` keeps only the NSEC3 ones). -/
inductive DnsRecord where
  | nsec3 (r : NSEC3)
  | other
  deriving DecidableEq

/-- Model of the `filter_map` in the test that keeps the NSEC3 records of the
authority section. -/
def filterNsec3Records (records : List DnsRecord) : List NSEC3 :=
  records.filterMap fun r =>
    match r with
    | DnsRecord.nsec3 n => some n
    | DnsRecord.other => none

/-- Which of the three per-record `assert_eq!` checks of the fixture loop
failed. -/
inductive FixtureFailure where
  | hashAlg
  | salt
  | iterations
  deriving DecidableEq

/-- Model of the per-record check loop of
`proof_of_non_existence_with_nsec3_records`: for each NSEC3 record, assert
that the hash algorithm is 1 (SHA-1), that the salt is `-` (how dig renders
an empty salt) and that the iteration count is 1.  The first failing
`assert_eq!` aborts the loop with its distinct failure. -/
def checkFixture : List NSEC3 → Except FixtureFailure Unit
  | [] => Except.ok ()
  | r :: rest =>
    if r.hash_alg = 1 then
      if r.salt = ['-'] then
        if r.iterations = 1 then checkFixture rest
        else Except.error FixtureFailure.iterations
      else Except.error FixtureFailure.salt
    else Except.error FixtureFailure.hashAlg

end Rfc5155

namespace DnsTest

/-- An IPv4 address as its four octets, modelling `std::net::Ipv4Addr`. -/
structure Ipv4Addr where
  a : Nat
  b : Nat
  c : Nat
  d : Nat
  deriving DecidableEq

/-- The two panics of the network allocator in `network.rs`: the
`unreachable!()` in `overlaps_with` for a netmask width other than 8, 16 or
24, and the `unimplemented!()` at the end of `choose_network` when every
candidate subnet is in use. -/
inductive NetPanic where
  | unreachableNetmask
  | unimplementedExhausted
  deriving DecidableEq

/-- Model of `overlaps_with` from `network.rs`: the left-hand side always has
netmask `/24`; compare only the high-order octets shared by `/24` and the
right-hand side's netmask width.  Any other width reaches `unreachable!()`,
modelled by `none`. -/
def overlaps_with (lhs rhs : Ipv4Addr) (rhs_netmask_bits : Nat) : Option Bool :=
  if rhs_netmask_bits = 24 then
    some (decide ((lhs.a, lhs.b, lhs.c) = (rhs.a, rhs.b, rhs.c)))
  else if rhs_netmask_bits = 16 then
    some (decide ((lhs.a, lhs.b) = (rhs.a, rhs.b)))
  else if rhs_netmask_bits = 8 then
    some (decide (lhs.a = rhs.a))
  else
    none

/-- Model of `overlaps_with_any` from `network.rs`: scan the in-use list and
return `true` at the first overlap.  A panic inside `overlaps_with`
propagates (as `none`), but only if it is reached before an earlier overlap
returns `true`. -/
def overlaps_with_any (lhs : Ipv4Addr) :
    List (Ipv4Addr × Nat) → Option Bool
  | [] => some false
  | (rhs, rhs_netmask_bits) :: rest =>
    match overlaps_with lhs rhs rhs_netmask_bits with
    | none => none
    | some true => some true
    | some false => overlaps_with_any lhs rest

/-- The fixed ladder of candidate `/24` base networks that `choose_network`
scans, in scan order: `192.168.c.0` for `c` in `0..=255`, then `172.b.c.0`
for `b` in `16..=31` and `c` in `0..=255`, then `10.b.c.0` for `b` and `c` in
`0..=255`. -/
def candidateLadder : List Ipv4Addr :=
  ((List.range 256).map fun c => Ipv4Addr.mk 192 168 c 0)
    ++ ((List.range 16).flatMap fun i =>
        (List.range 256).map fun c => Ipv4Addr.mk 172 (16 + i) c 0)
    ++ ((List.range 256).flatMap fun b =>
        (List.range 256).map fun c => Ipv4Addr.mk 10 b c 0)

/-- The loop body of `choose_network`: return the first candidate that
overlaps no in-use network; when the candidates run out, the code reaches
`unimplemented!()` (modelled by `NetPanic.unimplementedExhausted`); a panic
inside the overlap test propagates. -/
def chooseNetworkGo (in_use : List (Ipv4Addr × Nat)) :
    List Ipv4Addr → Except NetPanic Ipv4Addr
  | [] => Except.error NetPanic.unimplementedExhausted
  | cand :: rest =>
    match overlaps_with_any cand in_use with
    | none => Except.error NetPanic.unreachableNetmask
    | some true => chooseNetworkGo in_use rest
    | some false => Except.ok cand

/-- Model of `choose_network` from `network.rs`: linearly scan the fixed
candidate ladder for a `/24` network that overlaps no in-use network. -/
def choose_network (in_use : List (Ipv4Addr × Nat)) : Except NetPanic Ipv4Addr :=
  chooseNetworkGo in_use candidateLadder

/-- The precondition under which `overlaps_with` never panics: every in-use
netmask width is 8, 16 or 24 bits. -/
def masksValid (in_use : List (Ipv4Addr × Nat)) : Prop :=
  ∀ p ∈ in_use, p.2 = 8 ∨ p.2 = 16 ∨ p.2 = 24

/-- A lifecycle event of the reference-counted `Network(Arc<NetworkInner>)`
handle: a `Clone` of some live handle, or a drop of one live handle (on any
exit path: scope end, early return or unwinding after an assertion
failure). -/
inductive HandleEvent where
  | clone
  | drop
  deriving DecidableEq

/-- State of one allocated network resource: how many owning handles are
live, how many times `docker network rm` has run, and how many of those runs
failed (failures are counted but never propagated, since `Drop for
NetworkInner` discards the command's result with `let _ = ...`). -/
structure ArcState where
  refs : Nat
  removals : Nat
  rmFailures : Nat
  deriving DecidableEq

/-- One step of the `Arc` reference-counting lifecycle: cloning increments
the count; dropping a handle decrements it, and dropping the last handle runs
`Drop for NetworkInner`, which invokes `docker network rm` exactly then and
swallows its result (`rmFails` says whether that command fails; either way
the step succeeds and only the failure counter differs). -/
def arcStep (rmFails : Bool) (s : ArcState) (e : HandleEvent) : ArcState :=
  match e with
  | HandleEvent.clone => { s with refs := s.refs + 1 }
  | HandleEvent.drop =>
    match s.refs with
    | 0 => s
    | 1 =>
      { refs := 0, removals := s.removals + 1,
        rmFailures := s.rmFailures + if rmFails then 1 else 0 }
    | n + 2 => { s with refs := n + 1 }

/-- Run a lifecycle trace from the state just after `Network::new` returned:
one live handle, no removals yet. -/
def runTrace (rmFails : Bool) (events : List HandleEvent) : ArcState :=
  events.foldl (arcStep rmFails) { refs := 1, removals := 0, rmFailures := 0 }

/-- Initial value of the `static COUNT: AtomicUsize` in `network_count`. -/
def countInit : Nat := 1

/-- Size of the `usize` value space on the 64-bit targets the harness runs
on; `AtomicUsize` arithmetic wraps modulo this on overflow. -/
def usizeSize : Nat := 2 ^ 64

/-- Model of `AtomicUsize::fetch_add(1, ...)`: return the previous value and
the incremented state, wrapping on `usize` overflow as the atomic does.  The
surrounding `Mutex` in `NetworkInner::new` serialises the calls, so the
per-process call sequence is a sequential iteration of this step. -/
def fetchAdd (state : Nat) : Nat × Nat := (state, (state + 1) % usizeSize)

/-- The counter state after `call` completed calls of `network_count`. -/
def counterAfter : Nat → Nat
  | 0 => countInit
  | n + 1 => (fetchAdd (counterAfter n)).2

/-- Model of `network_count`: the value returned by the zero-based `call`-th
call in this process.  Like the `usize` counter it models, the returned
sequence wraps around once `usizeSize` calls have been made. -/
def network_count (call : Nat) : Nat := (fetchAdd (counterAfter call)).1

/-- The name `NetworkInner::new` derives, modelling the three components of
`format!("{network_name}-{pid}-{count}")`: the cargo package name, the
process id and the counter value. -/
structure NetworkName where
  pkg : String
  pid : Nat
  count : Nat
  deriving DecidableEq

/-- The network name derived by the zero-based `call`-th call of
`NetworkInner::new` in a process with id `pid`. -/
def networkInnerName (pkg : String) (pid : Nat) (call : Nat) : NetworkName :=
  { pkg := pkg, pid := pid, count := network_count call }

end DnsTest

namespace Purge

/-- The outcome of one executed command, modelling `std::process::Output`:
whether the exit status was success, the `Debug` rendering of the status (as
interpolated into error messages), the standard output split into its lines,
and the captured standard error text. -/
structure Output where
  success : Bool
  statusRepr : String
  stdout : List (List Char)
  stderr : String

/-- How a `purge` helper ends abnormally: an `io::Error` carrying a message
(the `Err` path of `run`), or a Rust panic (which the `main` error handler
does not catch). -/
inductive PurgeErr where
  | ioError (msg : String)
  | panicked
  deriving DecidableEq

/-- An observable action of the `purge` utility: a line printed to standard
output, a line printed to standard error, raw output forwarded by
`write_all`, or a removal command issued to docker. -/
inductive Event where
  | printLine (s : String)
  | eprintLine (s : String)
  | writeLines (ls : List (List Char))
  | dockerRmContainers (hashes : List (List Char))
  | dockerRmNetworks (hashes : List (List Char))
  deriving DecidableEq

/-- The docker commands `purge` may run, as the outputs the host would hand
back: `docker ps`, `docker network ls`, and the two removal commands (whose
outputs may depend on the hashes passed). -/
structure DockerWorld where
  ps : Output
  networkLs : Output
  rmContainers : List (List Char) → Output
  rmNetworks : List (List Char) → Output

/-- Model of `run_command` from `purge/src/main.rs`: pass a successful output
through, and turn a non-success exit status into an `io::Error` whose message
carries the program, the status and the command's stderr verbatim. -/
def run_command (program : String) (out : Output) : Except PurgeErr Output :=
  if out.success then Except.ok out
  else
    Except.error (PurgeErr.ioError
      ("command \"" ++ program ++ "\" exited with status-code " ++ out.statusRepr
        ++ ", stderr:\n" ++ out.stderr))

/-- The marker substring `dns-test` that `filter_command_output` looks for in
each line. -/
def marker : List Char := "dns-test".toList

/-- Whether `pat` occurs at the start of the second list (Rust
`str::starts_with` over bytes). -/
def isPrefixChars : List Char → List Char → Bool
  | [], _ => true
  | _ :: _, [] => false
  | p :: ps, c :: cs => p == c && isPrefixChars ps cs

/-- Whether `pat` occurs as a contiguous substring (Rust `str::contains`). -/
def containsPat (pat : List Char) : List Char → Bool
  | [] => pat.isEmpty
  | c :: cs => isPrefixChars pat (c :: cs) || containsPat pat cs

/-- Byte length of the UTF-8 encoding of a character list. -/
def utf8Len (l : List Char) : Nat := (l.map Char.utf8Size).sum

/-- Model of the slice expression `&line[..budget]` on a Rust `&str`: take
whole characters while their UTF-8 sizes consume the byte budget exactly.
`none` models the panic raised when the string is shorter than the budget or
when the budget does not fall on a character boundary. -/
def takeBytes : List Char → Nat → Option (List Char)
  | _, 0 => some []
  | [], _ + 1 => none
  | c :: cs, b + 1 =>
    if c.utf8Size ≤ b + 1 then
      (takeBytes cs (b + 1 - c.utf8Size)).map fun l => c :: l
    else none

/-- Apply `line[..12]` to every matching line, as the `map(...).collect()` of
`filter_command_output` does; the first out-of-bounds slice panics
(`none`). -/
def sliceAll : List (List Char) → Option (List (List Char))
  | [] => some []
  | l :: ls =>
    match takeBytes l 12 with
    | none => none
    | some p => (sliceAll ls).map fun rest => p :: rest

/-- Model of `filter_command_output` from `purge/src/main.rs`: run the
command, keep the stdout lines containing `dns-test`, and map each one to its
first 12 bytes.  A failing command propagates as an `io::Error`; a matching
line without a 12-byte character-aligned prefix panics. -/
def filter_command_output (program : String) (out : Output) :
    Except PurgeErr (List (List Char)) :=
  match run_command program out with
  | Except.error e => Except.error e
  | Except.ok o =>
    match sliceAll (o.stdout.filter fun line => containsPat marker line) with
    | none => Except.error PurgeErr.panicked
    | some hashes => Except.ok hashes

/-- The `if clean_container` block of `run`: list containers, report when
nothing matches, otherwise run `docker rm -f` on the matches and forward its
output. -/
def cleanContainersRun (w : DockerWorld) : Except PurgeErr (List Event) :=
  match filter_command_output "docker" w.ps with
  | Except.error e => Except.error e
  | Except.ok hashes =>
    if hashes.isEmpty then
      Except.ok [Event.printLine "No containers to be removed"]
    else
      match run_command "docker" (w.rmContainers hashes) with
      | Except.error e => Except.error e
      | Except.ok out =>
        Except.ok [Event.dockerRmContainers hashes,
          Event.printLine "Removed containers:", Event.writeLines out.stdout]

/-- The `if clean_network` block of `run`: list networks, report when nothing
matches, otherwise run `docker network rm` on the matches and forward its
output. -/
def cleanNetworksRun (w : DockerWorld) : Except PurgeErr (List Event) :=
  match filter_command_output "docker" w.networkLs with
  | Except.error e => Except.error e
  | Except.ok hashes =>
    if hashes.isEmpty then
      Except.ok [Event.printLine "No networks to be removed"]
    else
      match run_command "docker" (w.rmNetworks hashes) with
      | Except.error e => Except.error e
      | Except.ok out =>
        Except.ok [Event.dockerRmNetworks hashes,
          Event.printLine "Removed networks:", Event.writeLines out.stdout]

/-- Model of `run` from `purge/src/main.rs`: dispatch on the first positional
argument (`network` cleans only networks, `container` only containers, no
argument cleans containers then networks, anything else is an error), then
execute the selected blocks in program order. -/
def run (args : List String) (w : DockerWorld) : Except PurgeErr (List Event) :=
  match args.head? with
  | none =>
    match cleanContainersRun w with
    | Except.error e => Except.error e
    | Except.ok evs1 =>
      match cleanNetworksRun w with
      | Except.error e => Except.error e
      | Except.ok evs2 => Except.ok (evs1 ++ evs2)
  | some arg =>
    if arg = "network" then cleanNetworksRun w
    else if arg = "container" then cleanContainersRun w
    else Except.error (PurgeErr.ioError ("Unexpected argument `" ++ arg ++ "`"))

/-- Model of `main`: exit status 0 on success; on an `io::Error`, print the
message to stderr and exit 1; a panic (modelled by `none`) bypasses the
handler entirely. -/
def mainRun (args : List String) (w : DockerWorld) : Option (Nat × List Event) :=
  match run args w with
  | Except.ok events => some (0, events)
  | Except.error (PurgeErr.ioError msg) => some (1, [Event.eprintLine msg])
  | Except.error PurgeErr.panicked => none

end Purge

namespace Rfc5155

theorem ltChars_irrefl : ∀ l : List Char, ltChars l l = false := by
  intro l
  induction l with
  | nil => rfl
  | cons a as ih => simp [ltChars, ih]

theorem ltChars_asymm : ∀ a b : List Char, ltChars a b = true → ltChars b a = false := by
  intro a
  induction a with
  | nil =>
    intro b h
    cases b with
    | nil => simp [ltChars] at h
    | cons c cs => rfl
  | cons x xs ih =>
    intro b h
    cases b with
    | nil => simp [ltChars] at h
    | cons y ys =>
      by_cases hxy : x < y
      · have hyx : ¬ y < x := lt_asymm hxy
        simp [ltChars, hxy, hyx]
      · by_cases hyx : y < x
        · simp [ltChars, hxy, hyx] at h
        · have h2 : ltChars xs ys = true := by simpa [ltChars, hxy, hyx] using h
          simp [ltChars, hxy, hyx, ih ys h2]

theorem sorted_getD_lt (t : List (List Char))
    (hs : List.Pairwise (fun x y => ltChars x y = true) t)
    (i j : Nat) (hij : i < j) (hj : j < t.length) :
    ltChars (t.getD i []) (t.getD j []) = true := by
  have hi : i < t.length := lt_trans hij hj
  rw [List.getD_eq_getElem t [] hi, List.getD_eq_getElem t [] hj]
  have h := List.pairwise_iff_get.mp hs ⟨i, hi⟩ ⟨j, hj⟩ hij
  simpa [List.get_eq_getElem] using h

theorem mid_lt_right (left right : Nat) (h : left < right) :
    left + (right - left) / 2 < right := by
  have h2 : (right - left) / 2 < right - left :=
    Nat.div_lt_self (by omega) (by omega)
  omega

theorem binarySearchAux_bounds (t : List (List Char)) (needle : List Char) :
    ∀ (fuel left right : Nat), left ≤ right →
      (∀ i, binarySearchAux t needle fuel left right = Except.ok i →
        left ≤ i ∧ i < right) ∧
      (∀ e, binarySearchAux t needle fuel left right = Except.error e →
        left ≤ e ∧ e ≤ right) := by
  intro fuel
  induction fuel with
  | zero =>
    intro left right hlr
    constructor
    · intro i h
      exact Except.noConfusion h
    · intro e h
      injection h with h2
      omega
  | succ fuel ih =>
    intro left right hlr
    by_cases hlt : left < right
    · have hmid2 : left + (right - left) / 2 < right := mid_lt_right left right hlt
      have hmid1 : left ≤ left + (right - left) / 2 := Nat.le_add_right _ _
      have hrec1 := ih (left + (right - left) / 2 + 1) right hmid2
      have hrec2 := ih left (left + (right - left) / 2) hmid1
      constructor
      · intro i h
        simp only [binarySearchAux, if_pos hlt] at h
        by_cases hc1 : ltChars (t.getD (left + (right - left) / 2) []) needle = true
        · rw [if_pos hc1] at h
          have := hrec1.1 i h
          omega
        · rw [if_neg hc1] at h
          by_cases hc2 : ltChars needle (t.getD (left + (right - left) / 2) []) = true
          · rw [if_pos hc2] at h
            have := hrec2.1 i h
            omega
          · rw [if_neg hc2] at h
            injection h with h2
            omega
      · intro e h
        simp only [binarySearchAux, if_pos hlt] at h
        by_cases hc1 : ltChars (t.getD (left + (right - left) / 2) []) needle = true
        · rw [if_pos hc1] at h
          have := hrec1.2 e h
          omega
        · rw [if_neg hc1] at h
          by_cases hc2 : ltChars needle (t.getD (left + (right - left) / 2) []) = true
          · rw [if_pos hc2] at h
            have := hrec2.2 e h
            omega
          · rw [if_neg hc2] at h
            exact Except.noConfusion h
    · constructor
      · intro i h
        simp only [binarySearchAux, if_neg hlt] at h
        exact Except.noConfusion h
      · intro e h
        simp only [binarySearchAux, if_neg hlt] at h
        injection h with h2
        omega

theorem binarySearchAux_ok_left (t : List (List Char)) (needle : List Char)
    (hs : List.Pairwise (fun x y => ltChars x y = true) t) :
    ∀ (fuel left right : Nat), right - left ≤ fuel → left < right →
      right ≤ t.length → t.getD left [] = needle →
      binarySearchAux t needle fuel left right = Except.ok left := by
  intro fuel
  induction fuel with
  | zero =>
    intro left right h1 h2 h3 h4
    omega
  | succ fuel ih =>
    intro left right h1 h2 h3 h4
    by_cases hm : left + (right - left) / 2 = left
    · simp only [binarySearchAux, if_pos h2, hm, h4, ltChars_irrefl, if_false]
      simp
    · have hlm : left < left + (right - left) / 2 := by omega
      have hmr : left + (right - left) / 2 < right := mid_lt_right left right h2
      have hlt2 : ltChars needle (t.getD (left + (right - left) / 2) []) = true := by
        rw [← h4]
        exact sorted_getD_lt t hs left _ hlm (lt_of_lt_of_le hmr h3)
      have hnlt : ltChars (t.getD (left + (right - left) / 2) []) needle = false :=
        ltChars_asymm _ _ hlt2
      have hrec : binarySearchAux t needle fuel left (left + (right - left) / 2) =
          Except.ok left :=
        ih left (left + (right - left) / 2) (by omega) hlm
          (le_trans (le_of_lt hmr) h3) h4
      simp only [binarySearchAux, if_pos h2, hnlt, hlt2, Bool.false_eq_true,
        if_false, if_true, hrec]

theorem binarySearchAux_ok_last (t : List (List Char)) (needle : List Char)
    (hs : List.Pairwise (fun x y => ltChars x y = true) t) :
    ∀ (fuel left right : Nat), right - left ≤ fuel → left < right →
      right ≤ t.length → t.getD (right - 1) [] = needle →
      binarySearchAux t needle fuel left right = Except.ok (right - 1) := by
  intro fuel
  induction fuel with
  | zero =>
    intro left right h1 h2 h3 h4
    omega
  | succ fuel ih =>
    intro left right h1 h2 h3 h4
    have hmr : left + (right - left) / 2 < right := mid_lt_right left right h2
    by_cases hm : left + (right - left) / 2 = right - 1
    · simp only [binarySearchAux, if_pos h2, hm, h4, ltChars_irrefl, if_false]
      simp
    · have hmlt : left + (right - left) / 2 < right - 1 := by omega
      have hlt2 : ltChars (t.getD (left + (right - left) / 2) []) needle = true := by
        rw [← h4]
        exact sorted_getD_lt t hs _ (right - 1) hmlt (by omega)
      have hrec : binarySearchAux t needle fuel (left + (right - left) / 2 + 1) right =
          Except.ok (right - 1) :=
        ih (left + (right - left) / 2 + 1) right (by omega) (by omega) h3 h4
      simp only [binarySearchAux, if_pos h2, hlt2, if_true, hrec]

/-- C1 counterexample: the claim's wraparound clause fails on the code.  For
the record with owner label `y` (owner hash `Y` after upper-casing) and next
hashed owner name `B`, the interval wraps (`B < Y`), and the specification's
covering relation holds at hash `Z` (it is above the owner hash); but the
code's `covers` returns `false`, because it requires both strict bounds
unconditionally. -/
theorem covers_wraparound_counterexample :
    (([['y']] : List (List Char)).head? = some ['y']) ∧
    ['y'].map Char.toUpper = ['Y'] ∧
    ltChars ['B'] ['Y'] = true ∧
    covers { fqdn := [['y']], next_hashed_owner_name := ['B'], hash_alg := 1,
             salt := ['-'], iterations := 1 } ['Z'] = some false ∧
    coversSpec ['Y'] ['Z'] ['B'] = true :=
  ⟨rfl, by decide, by decide, by decide, by decide⟩

/-- C1 (amended): for every NSEC3 record whose FQDN has a first label,
`covers(record, hash)` is true iff `owner_hash < hash` and
`hash < next_hashed_owner_name` in byte order of the base32 text, where the
owner hash is the first label of the record's FQDN normalised to upper case.
The comparison is strict on both bounds and does not invert at the table
boundary: a record with `next_hashed_owner_name` at or below its owner hash
covers nothing. -/
theorem covers_strict_interval (r : NSEC3) (hash owner : List Char)
    (h : r.fqdn.head? = some owner) :
    covers r hash = some true ↔
      (ltChars (owner.map Char.toUpper) hash = true ∧
        ltChars hash r.next_hashed_owner_name = true) := by
  by_cases h2 : ltChars hash r.next_hashed_owner_name = true
  · simp [covers, h2, h]
  · simp [covers, h2]

/-- Witness for `covers_strict_interval` at the record with owner label `a`
and next hashed owner name `Z`, and hash `C`. -/
theorem covers_strict_interval_witness :
    covers { fqdn := [['a']], next_hashed_owner_name := ['Z'], hash_alg := 1,
             salt := ['-'], iterations := 1 } ['C'] = some true :=
  (covers_strict_interval
    { fqdn := [['a']], next_hashed_owner_name := ['Z'], hash_alg := 1,
      salt := ['-'], iterations := 1 } ['C'] ['a'] rfl).mpr (by decide)

/-- C2 counterexample: on the sorted (nondecreasing) table `["a", "a"]`, the
wrap property fails: the predecessor of the entry at index 0 should be the
last index 1, but `find_prev` returns 0, because `binary_search` may return
the index of any element equal to the needle. -/
theorem find_prev_duplicate_counterexample :
    List.Pairwise (fun x y => ltChars x y = true ∨ x = y) [['a'], ['a']] ∧
    find_prev ['a'] [['a'], ['a']] = some 0 ∧
    ([['a'], ['a']] : List (List Char)).length - 1 = 1 :=
  ⟨by decide, by decide, rfl⟩

/-- C2 (amended to strictly sorted tables): for every non-empty strictly
sorted (hence duplicate-free) table and every needle, `find_prev` and
`find_next` return an index strictly less than the table's length, and at the
boundary they wrap circularly: the predecessor of the entry at index 0 is the
last index, and the successor of the entry at the last index is index 0. -/
theorem find_prev_find_next_strict_sorted (t : List (List Char))
    (needle : List Char) (hne : t ≠ [])
    (hs : List.Pairwise (fun x y => ltChars x y = true) t) :
    (∀ i, find_prev needle t = some i → i < t.length) ∧
    (∀ i, find_next needle t = some i → i < t.length) ∧
    find_prev (t.getD 0 []) t = some (t.length - 1) ∧
    find_next (t.getLast hne) t = some 0 := by
  have hlen : 0 < t.length := List.length_pos.mpr hne
  have hemp : t.isEmpty = false := by
    cases t
    · exact absurd rfl hne
    · rfl
  refine ⟨?_, ?_, ?_, ?_⟩
  · intro i hi
    have hbounds := binarySearchAux_bounds t needle t.length 0 t.length (Nat.zero_le _)
    simp only [find_prev, hemp, Bool.false_eq_true, if_false] at hi
    cases hres : binary_search t needle with
    | error e =>
      rw [hres] at hi
      have hb := hbounds.2 e hres
      cases e with
      | zero => simp at hi; omega
      | succ k => simp at hi; omega
    | ok j =>
      rw [hres] at hi
      have hb := hbounds.1 j hres
      cases j with
      | zero => simp at hi; omega
      | succ k => simp at hi; omega
  · intro i hi
    simp only [find_next, hemp, Bool.false_eq_true, if_false] at hi
    have : i = ((match binary_search t needle with
        | Except.ok index => index
        | Except.error index => index) + 1) % t.length := by
      cases hi
      rfl
    rw [this]
    exact Nat.mod_lt _ hlen
  · have hok : binary_search t (t.getD 0 []) = Except.ok 0 :=
      binarySearchAux_ok_left t (t.getD 0 []) hs t.length 0 t.length
        (by omega) hlen (le_refl _) rfl
    simp only [find_prev, hemp, Bool.false_eq_true, if_false, hok]
  · have hok : binary_search t (t.getLast hne) = Except.ok (t.length - 1) := by
      apply binarySearchAux_ok_last t (t.getLast hne) hs t.length 0 t.length
        (by omega) hlen (le_refl _)
      rw [List.getLast_eq_getElem, List.getD_eq_getElem t [] (by omega)]
    simp only [find_next, hemp, Bool.false_eq_true, if_false, hok]
    rw [Nat.sub_add_cancel hlen, Nat.mod_self]

/-- Witness for `find_prev_find_next_strict_sorted` on the strictly sorted
table `["A", "B", "C"]`. -/
theorem find_prev_find_next_strict_sorted_witness :
    find_prev (([['A'], ['B'], ['C']] : List (List Char)).getD 0 [])
        [['A'], ['B'], ['C']] = some 2 ∧
    find_next (([['A'], ['B'], ['C']] : List (List Char)).getLast (by decide))
        [['A'], ['B'], ['C']] = some 0 := by
  have h := find_prev_find_next_strict_sorted [['A'], ['B'], ['C']] ['B']
    (by decide) (by decide)
  exact ⟨h.2.2.1, h.2.2.2⟩

theorem checkFixture_ok_aux : ∀ rs : List NSEC3,
    checkFixture rs = Except.ok () ↔
      ∀ r ∈ rs, r.hash_alg = 1 ∧ r.salt = ['-'] ∧ r.iterations = 1 := by
  intro rs
  induction rs with
  | nil => simp [checkFixture]
  | cons r rest ih =>
    by_cases h1 : r.hash_alg = 1 <;> by_cases h2 : r.salt = ['-'] <;>
      by_cases h3 : r.iterations = 1 <;>
      simp [checkFixture, h1, h2, h3, ih]

/-- C5: for every NSEC3 record of the response's authority section, the
verifier checks hash algorithm 1 (SHA-1), the empty-salt marker `-` and
iteration count 1; the whole check passes iff every record conforms, and a
record deviating in a field triggers the distinct assertion failure for that
field rather than being silently ignored. -/
theorem check_fixture_ok_iff (records : List DnsRecord) :
    (checkFixture (filterNsec3Records records) = Except.ok () ↔
      ∀ r ∈ filterNsec3Records records,
        r.hash_alg = 1 ∧ r.salt = ['-'] ∧ r.iterations = 1) ∧
    (∀ (r : NSEC3) (rest : List NSEC3), r.hash_alg ≠ 1 →
      checkFixture (r :: rest) = Except.error FixtureFailure.hashAlg) ∧
    (∀ (r : NSEC3) (rest : List NSEC3), r.hash_alg = 1 → r.salt ≠ ['-'] →
      checkFixture (r :: rest) = Except.error FixtureFailure.salt) ∧
    (∀ (r : NSEC3) (rest : List NSEC3), r.hash_alg = 1 → r.salt = ['-'] →
      r.iterations ≠ 1 →
      checkFixture (r :: rest) = Except.error FixtureFailure.iterations) := by
  refine ⟨checkFixture_ok_aux _, ?_, ?_, ?_⟩
  · intro r rest h1
    simp [checkFixture, h1]
  · intro r rest h1 h2
    simp [checkFixture, h1, h2]
  · intro r rest h1 h2 h3
    simp [checkFixture, h1, h2, h3]

/-- Witness for `check_fixture_ok_iff`: a conforming NSEC3 record mixed with
a non-NSEC3 record passes the fixture check. -/
theorem check_fixture_ok_iff_witness :
    checkFixture (filterNsec3Records
      [DnsRecord.nsec3 ⟨[['a']], ['B'], 1, ['-'], 1⟩, DnsRecord.other]) =
      Except.ok () :=
  (check_fixture_ok_iff
    [DnsRecord.nsec3 ⟨[['a']], ['B'], 1, ['-'], 1⟩, DnsRecord.other]).1.mpr
    (by decide)

end Rfc5155

namespace DnsTest

theorem overlaps_with_total (lhs rhs : Ipv4Addr) (m : Nat)
    (h : m = 8 ∨ m = 16 ∨ m = 24) :
    ∃ b, overlaps_with lhs rhs m = some b := by
  rcases h with rfl | rfl | rfl <;> exact ⟨_, rfl⟩

theorem overlaps_with_any_total (lhs : Ipv4Addr) (in_use : List (Ipv4Addr × Nat))
    (h : masksValid in_use) :
    ∃ b, overlaps_with_any lhs in_use = some b := by
  induction in_use with
  | nil => exact ⟨false, rfl⟩
  | cons p rest ih =>
    obtain ⟨rhs, m⟩ := p
    obtain ⟨b0, hb0⟩ :=
      overlaps_with_total lhs rhs m (h (rhs, m) (List.mem_cons_self _ _))
    have hrest : masksValid rest := fun q hq => h q (List.mem_cons_of_mem _ hq)
    cases b0 with
    | false =>
      obtain ⟨b, hb⟩ := ih hrest
      exact ⟨b, by simp [overlaps_with_any, hb0, hb]⟩
    | true => exact ⟨true, by simp [overlaps_with_any, hb0]⟩

theorem chooseNetworkGo_eq_find (in_use : List (Ipv4Addr × Nat))
    (h : masksValid in_use) :
    ∀ l : List Ipv4Addr,
      chooseNetworkGo in_use l =
        (match l.find? (fun c => overlaps_with_any c in_use == some false) with
          | some c => Except.ok c
          | none => Except.error NetPanic.unimplementedExhausted) := by
  intro l
  induction l with
  | nil => rfl
  | cons cand rest ih =>
    obtain ⟨b, hb⟩ := overlaps_with_any_total cand in_use h
    cases b with
    | false => simp [chooseNetworkGo, hb, List.find?_cons]
    | true => simp [chooseNetworkGo, hb, List.find?_cons, ih]

/-- C3: under the precondition that every in-use netmask width is 8, 16 or
24 bits, `choose_network` equals the first-match scan of the fixed candidate
ladder (the 192.168.0.0/24 through 10.255.255.0/24 sequence) for a candidate
whose overlap test against every in-use network is false; in particular any
returned candidate overlaps no in-use entry. -/
theorem choose_network_scans_ladder (in_use : List (Ipv4Addr × Nat))
    (h : masksValid in_use) :
    choose_network in_use =
      (match candidateLadder.find? (fun c => overlaps_with_any c in_use == some false) with
        | some c => Except.ok c
        | none => Except.error NetPanic.unimplementedExhausted) ∧
    ∀ c, choose_network in_use = Except.ok c →
      overlaps_with_any c in_use = some false := by
  have h1 := chooseNetworkGo_eq_find in_use h candidateLadder
  refine ⟨h1, ?_⟩
  intro c hc
  have hc2 : chooseNetworkGo in_use candidateLadder = Except.ok c := hc
  rw [h1] at hc2
  cases hfind : candidateLadder.find? (fun c => overlaps_with_any c in_use == some false) with
  | none =>
    rw [hfind] at hc2
    exact Except.noConfusion hc2
  | some c2 =>
    rw [hfind] at hc2
    injection hc2 with hcc
    have hp := List.find?_some hfind
    rw [hcc] at hp
    simpa using hp

/-- Witness for `choose_network_scans_ladder`: with only `192.168.0.0/24` in
use, the scan returns `192.168.1.0`, which overlaps nothing in use. -/
theorem choose_network_scans_ladder_witness :
    overlaps_with_any (Ipv4Addr.mk 192 168 1 0)
      [(Ipv4Addr.mk 192 168 0 0, 24)] = some false :=
  (choose_network_scans_ladder [(Ipv4Addr.mk 192 168 0 0, 24)]
    (by unfold masksValid; decide)).2 (Ipv4Addr.mk 192 168 1 0) (by rfl)

theorem chooseNetworkGo_all_overlap (in_use : List (Ipv4Addr × Nat)) :
    ∀ l : List Ipv4Addr,
      (∀ c ∈ l, overlaps_with_any c in_use = some true) →
      chooseNetworkGo in_use l = Except.error NetPanic.unimplementedExhausted := by
  intro l
  induction l with
  | nil => intro _; rfl
  | cons cand rest ih =>
    intro hall
    have hc := hall cand (List.mem_cons_self _ _)
    simp [chooseNetworkGo, hc,
      ih (fun c hcm => hall c (List.mem_cons_of_mem _ hcm))]

theorem candidateLadder_first_octet :
    ∀ c ∈ candidateLadder, c.a = 192 ∨ c.a = 172 ∨ c.a = 10 := by
  intro c hc
  simp only [candidateLadder, List.mem_append, List.mem_map, List.mem_flatMap,
    List.mem_range] at hc
  rcases hc with (⟨x, hx, rfl⟩ | ⟨i, hi, x, hx, rfl⟩) | ⟨b, hb, x, hx, rfl⟩
  · left; rfl
  · right; left; rfl
  · right; right; rfl

/-- C4: evaluation of the code at the failing input.  When the three
networks `192.0.0.0/8`, `172.0.0.0/8` and `10.0.0.0/8` are in use, every
candidate of the ladder overlaps one of them, and `choose_network` reaches
the `unimplemented!()` panic (modelled by
`NetPanic.unimplementedExhausted`) instead of returning an error value to the
caller of `Network::new`. -/
theorem choose_network_exhaustion_panics :
    choose_network [(Ipv4Addr.mk 192 0 0 0, 8), (Ipv4Addr.mk 172 0 0 0, 8),
        (Ipv4Addr.mk 10 0 0 0, 8)] =
      Except.error NetPanic.unimplementedExhausted := by
  apply chooseNetworkGo_all_overlap
  intro c hc
  rcases candidateLadder_first_octet c hc with h | h | h <;>
    simp [overlaps_with_any, overlaps_with, h]

/-- C10: `overlaps_with` panics via `unreachable!()` (modelled by `none`)
exactly when the in-use netmask width is not 8, 16 or 24 bits; consequently,
under the precondition that every in-use netmask is octet-aligned,
`choose_network` never reaches that panic. -/
theorem overlaps_with_unreachable_netmask (lhs rhs : Ipv4Addr) (m : Nat) :
    (overlaps_with lhs rhs m = none ↔ ¬(m = 8 ∨ m = 16 ∨ m = 24)) ∧
    ∀ in_use : List (Ipv4Addr × Nat), masksValid in_use →
      choose_network in_use ≠ Except.error NetPanic.unreachableNetmask := by
  constructor
  · unfold overlaps_with
    split_ifs with h1 h2 h3 <;> simp [*]
  · intro in_use h hcontra
    have h1 := chooseNetworkGo_eq_find in_use h candidateLadder
    have hc : chooseNetworkGo in_use candidateLadder =
        Except.error NetPanic.unreachableNetmask := hcontra
    rw [h1] at hc
    cases hfind : candidateLadder.find? (fun c => overlaps_with_any c in_use == some false) with
    | none =>
      rw [hfind] at hc
      injection hc with hc2
      exact NetPanic.noConfusion hc2
    | some c2 =>
      rw [hfind] at hc
      exact Except.noConfusion hc

/-- Witness for `overlaps_with_unreachable_netmask`: a `/12` netmask (as a
host interface could report) makes `overlaps_with` panic. -/
theorem overlaps_with_unreachable_netmask_witness :
    overlaps_with (Ipv4Addr.mk 1 2 3 4) (Ipv4Addr.mk 5 6 7 8) 12 = none :=
  (overlaps_with_unreachable_netmask (Ipv4Addr.mk 1 2 3 4)
    (Ipv4Addr.mk 5 6 7 8) 12).1.mpr (by decide)

theorem runTrace_aux (rmFails : Bool) :
    ∀ (es : List HandleEvent) (c d r f : Nat), d ≤ c →
      (∀ n, n < es.length →
        d + (es.take n).count HandleEvent.drop ≤
          c + (es.take n).count HandleEvent.clone) →
      d + es.count HandleEvent.drop = c + es.count HandleEvent.clone + 1 →
      ∃ fOut, es.foldl (arcStep rmFails)
          { refs := 1 + c - d, removals := r, rmFailures := f } =
        { refs := 0, removals := r + 1, rmFailures := fOut } := by
  intro es
  induction es with
  | nil =>
    intro c d r f hdc hpre hbal
    simp [List.count_nil] at hbal
    exact absurd hbal (by omega)
  | cons e es ih =>
    intro c d r f hdc hpre hbal
    cases e with
    | clone =>
      rw [List.foldl_cons]
      have hv : 1 + c - d + 1 = 1 + (c + 1) - d := by omega
      have hstep : arcStep rmFails
          { refs := 1 + c - d, removals := r, rmFailures := f } HandleEvent.clone =
          { refs := 1 + (c + 1) - d, removals := r, rmFailures := f } := by
        show ArcState.mk (1 + c - d + 1) r f =
          ArcState.mk (1 + (c + 1) - d) r f
        rw [hv]
      rw [hstep]
      apply ih (c + 1) d r f (by omega)
      · intro n hn
        have h2 := hpre (n + 1) (by simp; omega)
        simp only [List.take_succ_cons, List.count_cons] at h2
        simp at h2
        omega
      · have h3 := hbal
        simp only [List.count_cons] at h3
        simp at h3
        omega
    | drop =>
      rw [List.foldl_cons]
      by_cases hdceq : d = c
      · have hres : (1 : Nat) + c - d = 1 := by omega
        have hstep : arcStep rmFails
            { refs := 1 + c - d, removals := r, rmFailures := f } HandleEvent.drop =
            { refs := 0, removals := r + 1,
              rmFailures := f + if rmFails then 1 else 0 } := by
          rw [hres]
          rfl
        rw [hstep]
        cases es with
        | nil => exact ⟨f + if rmFails then 1 else 0, by simp⟩
        | cons e2 es2 =>
          exfalso
          have h2 := hpre 1 (by simp)
          simp [List.take_succ_cons, List.count_cons] at h2
          omega
      · have hlt : d < c := lt_of_le_of_ne hdc hdceq
        have hres : (1 : Nat) + c - d = (c - d - 1) + 2 := by omega
        have hv : (c - d - 1) + 1 = 1 + c - (d + 1) := by omega
        have hstep : arcStep rmFails
            { refs := 1 + c - d, removals := r, rmFailures := f } HandleEvent.drop =
            { refs := 1 + c - (d + 1), removals := r, rmFailures := f } := by
          rw [hres]
          show ArcState.mk ((c - d - 1) + 1) r f =
            ArcState.mk (1 + c - (d + 1)) r f
          rw [hv]
        rw [hstep]
        apply ih c (d + 1) r f (by omega)
        · intro n hn
          have h2 := hpre (n + 1) (by simp; omega)
          simp only [List.take_succ_cons, List.count_cons] at h2
          simp at h2
          omega
        · have h3 := hbal
          simp only [List.count_cons] at h3
          simp at h3
          omega

/-- C6: for every lifecycle trace of a `Network` handle family that is
balanced (each of the one original and all cloned handles is dropped exactly
once, on whatever exit path) and well-formed (no prefix drops more handles
than exist), the `docker network rm` teardown runs exactly once — at the
final drop — and whether that command fails has no effect on the lifecycle
(its result is discarded, never propagated). -/
theorem network_removed_exactly_once (events : List HandleEvent) (rmFails : Bool)
    (hbal : events.count HandleEvent.drop = events.count HandleEvent.clone + 1)
    (hpre : ∀ n, n < events.length →
      (events.take n).count HandleEvent.drop ≤
        (events.take n).count HandleEvent.clone) :
    (runTrace rmFails events).removals = 1 ∧ (runTrace rmFails events).refs = 0 := by
  obtain ⟨fOut, hf⟩ := runTrace_aux rmFails events 0 0 0 0 (le_refl 0)
    (by intro n hn; simpa using hpre n hn) (by simpa using hbal)
  have heq : runTrace rmFails events =
      { refs := 0, removals := 1, rmFailures := fOut } := hf
  rw [heq]
  exact ⟨rfl, rfl⟩

/-- Witness for `network_removed_exactly_once`: the trace clone, drop, drop
(one clone, then both handles dropped) with a failing removal command. -/
theorem network_removed_exactly_once_witness :
    (runTrace true [HandleEvent.clone, HandleEvent.drop, HandleEvent.drop]).removals = 1 ∧
    (runTrace true [HandleEvent.clone, HandleEvent.drop, HandleEvent.drop]).refs = 0 :=
  network_removed_exactly_once [HandleEvent.clone, HandleEvent.drop, HandleEvent.drop]
    true (by decide) (by decide)

theorem usizeSize_eq : usizeSize = 18446744073709551616 := by
  norm_num [usizeSize]

theorem counterAfter_eq (n : Nat) : counterAfter n = (1 + n) % usizeSize := by
  induction n with
  | zero =>
    show countInit = (1 + 0) % usizeSize
    rw [usizeSize_eq]
    rfl
  | succ n ih =>
    show (counterAfter n + 1) % usizeSize = (1 + (n + 1)) % usizeSize
    rw [ih, usizeSize_eq]
    omega

theorem network_count_eq (n : Nat) : network_count n = (1 + n) % usizeSize :=
  counterAfter_eq n

/-- C7 counterexample: the claim's universal strict monotonicity and name
distinctness fail once the `usize` counter wraps: the distinct calls with
indices 0 and 2^64 both return counter value 1 and derive identical network
names. -/
theorem network_count_wraparound_counterexample :
    (0 : Nat) ≠ 2 ^ 64 ∧
    network_count 0 = 1 ∧
    network_count (2 ^ 64) = 1 ∧
    networkInnerName "dns-test" 42 0 = networkInnerName "dns-test" 42 (2 ^ 64) := by
  have hM : (2 : Nat) ^ 64 = 18446744073709551616 := by norm_num
  have h2 : network_count (2 ^ 64) = 1 := by
    rw [network_count_eq, usizeSize_eq, hM]
  refine ⟨by norm_num, rfl, h2, ?_⟩
  show NetworkName.mk "dns-test" 42 (network_count 0) =
    NetworkName.mk "dns-test" 42 (network_count (2 ^ 64))
  rw [h2]
  rfl

/-- C7 (amended to calls made before the counter wraps): within one process
the naming counter starts at 1, and over call indices below 2^64 - 1 (that
is, until `usize` wraparound) it returns strictly increasing values, so any
two such distinct calls of `NetworkInner::new` derive distinct network names
(same package name and process id, different counter value). -/
theorem network_names_unique (pkg : String) (pid : Nat) (i j : Nat)
    (hi : i < 2 ^ 64 - 1) (hj : j < 2 ^ 64 - 1) :
    network_count 0 = 1 ∧
    (i < j → network_count i < network_count j) ∧
    (i ≠ j → networkInnerName pkg pid i ≠ networkInnerName pkg pid j) := by
  have hM : (2 : Nat) ^ 64 = 18446744073709551616 := by norm_num
  rw [hM] at hi hj
  have hvi : network_count i = 1 + i := by
    rw [network_count_eq, usizeSize_eq]
    omega
  have hvj : network_count j = 1 + j := by
    rw [network_count_eq, usizeSize_eq]
    omega
  refine ⟨rfl, ?_, ?_⟩
  · intro hij
    rw [hvi, hvj]
    omega
  · intro hne heq
    have hc : network_count i = network_count j :=
      congrArg NetworkName.count heq
    rw [hvi, hvj] at hc
    omega

/-- Witness for `network_names_unique`: the first two calls in one process
yield distinct names. -/
theorem network_names_unique_witness :
    networkInnerName "dns-test" 42 0 ≠ networkInnerName "dns-test" 42 1 :=
  (network_names_unique "dns-test" 42 0 1 (by norm_num) (by norm_num)).2.2
    (by decide)

end DnsTest

namespace Purge

theorem utf8Len_nil : utf8Len [] = 0 := rfl

theorem utf8Len_cons (c : Char) (l : List Char) :
    utf8Len (c :: l) = c.utf8Size + utf8Len l := by
  simp [utf8Len]

theorem utf8Len_take_le : ∀ (l : List Char) (k : Nat),
    utf8Len (l.take k) ≤ utf8Len l := by
  intro l
  induction l with
  | nil => intro k; simp [utf8Len]
  | cons c cs ih =>
    intro k
    cases k with
    | zero => simp [utf8Len]
    | succ j =>
      simp only [List.take_succ_cons, utf8Len_cons]
      exact Nat.add_le_add_left (ih j) _

theorem takeBytes_isSome_iff : ∀ (l : List Char) (b : Nat),
    (∃ p, takeBytes l b = some p) ↔ ∃ k, utf8Len (l.take k) = b := by
  intro l
  induction l with
  | nil =>
    intro b
    cases b with
    | zero => exact ⟨fun _ => ⟨0, rfl⟩, fun _ => ⟨[], rfl⟩⟩
    | succ m =>
      constructor
      · rintro ⟨p, hp⟩
        exact Option.noConfusion hp
      · rintro ⟨k, hk⟩
        simp [utf8Len] at hk
  | cons c cs ih =>
    intro b
    cases b with
    | zero => exact ⟨fun _ => ⟨0, rfl⟩, fun _ => ⟨[], rfl⟩⟩
    | succ m =>
      by_cases hsz : c.utf8Size ≤ m + 1
      · constructor
        · rintro ⟨p, hp⟩
          simp only [takeBytes, if_pos hsz] at hp
          cases hq : takeBytes cs (m + 1 - c.utf8Size) with
          | none => rw [hq] at hp; exact Option.noConfusion hp
          | some q =>
            obtain ⟨k, hk⟩ := (ih (m + 1 - c.utf8Size)).mp ⟨q, hq⟩
            refine ⟨k + 1, ?_⟩
            simp only [List.take_succ_cons, utf8Len_cons]
            omega
        · rintro ⟨k, hk⟩
          cases k with
          | zero => simp [utf8Len] at hk
          | succ j =>
            simp only [List.take_succ_cons, utf8Len_cons] at hk
            obtain ⟨q, hq⟩ := (ih (m + 1 - c.utf8Size)).mpr ⟨j, by omega⟩
            refine ⟨c :: q, ?_⟩
            simp only [takeBytes, if_pos hsz, hq, Option.map_some']
      · constructor
        · rintro ⟨p, hp⟩
          simp only [takeBytes, if_neg hsz] at hp
          exact Option.noConfusion hp
        · rintro ⟨k, hk⟩
          cases k with
          | zero => simp [utf8Len] at hk
          | succ j =>
            simp only [List.take_succ_cons, utf8Len_cons] at hk
            exact absurd hk (by intro h2; exact hsz (by omega))

theorem sliceAll_none_iff : ∀ ls : List (List Char),
    sliceAll ls = none ↔ ∃ l ∈ ls, takeBytes l 12 = none := by
  intro ls
  induction ls with
  | nil => simp [sliceAll]
  | cons l ls ih =>
    cases hq : takeBytes l 12 with
    | none => simp [sliceAll, hq]
    | some p => simp [sliceAll, hq, Option.map_eq_none', ih]

theorem filter_command_output_ok_shape (program : String) (out : Output)
    (hs : out.success = true) :
    filter_command_output program out =
      (match sliceAll (out.stdout.filter fun line => containsPat marker line) with
        | none => Except.error PurgeErr.panicked
        | some hashes => Except.ok hashes) := by
  have hrun : run_command program out = Except.ok out := by
    simp [run_command, hs]
  unfold filter_command_output
  rw [hrun]

/-- C9: `filter_command_output` is partial.  For a command that exits
successfully, it panics (rather than returning an error) exactly when some
stdout line containing the marker `dns-test` has no character-aligned prefix
of exactly 12 UTF-8 bytes — in particular any matching line shorter than 12
bytes, or whose 12th byte is not a character boundary; and it returns
normally only when every matching line is at least 12 bytes long. -/
theorem filter_command_output_partiality (program : String) (out : Output)
    (hs : out.success = true) :
    (filter_command_output program out = Except.error PurgeErr.panicked ↔
      ∃ line ∈ out.stdout, containsPat marker line = true ∧
        ¬ ∃ k, utf8Len (line.take k) = 12) ∧
    (∀ hashes, filter_command_output program out = Except.ok hashes →
      ∀ line ∈ out.stdout, containsPat marker line = true →
        12 ≤ utf8Len line) := by
  have hfc := filter_command_output_ok_shape program out hs
  constructor
  · rw [hfc]
    cases hsl : sliceAll (out.stdout.filter fun line => containsPat marker line) with
    | none =>
      simp only [hsl]
      constructor
      · intro _
        obtain ⟨l, hl, hnone⟩ := (sliceAll_none_iff _).mp hsl
        rw [List.mem_filter] at hl
        refine ⟨l, hl.1, hl.2, ?_⟩
        intro hex
        obtain ⟨p, hp⟩ := (takeBytes_isSome_iff l 12).mpr hex
        rw [hnone] at hp
        exact Option.noConfusion hp
      · intro _; trivial
    | some hashes =>
      simp only [hsl]
      constructor
      · intro h
        exact Except.noConfusion h
      · rintro ⟨l, hl, hcont, hnk⟩
        exfalso
        have hnone : takeBytes l 12 = none := by
          cases hq : takeBytes l 12 with
          | none => rfl
          | some p => exact absurd ((takeBytes_isSome_iff l 12).mp ⟨p, hq⟩) hnk
        have hcontra : sliceAll (out.stdout.filter fun line => containsPat marker line) = none :=
          (sliceAll_none_iff _).mpr ⟨l, List.mem_filter.mpr ⟨hl, hcont⟩, hnone⟩
        rw [hsl] at hcontra
        exact Option.noConfusion hcontra
  · intro hashes hok line hline hcont
    rw [hfc] at hok
    cases hsl : sliceAll (out.stdout.filter fun line => containsPat marker line) with
    | none =>
      simp only [hsl] at hok
      exact Except.noConfusion hok
    | some hs2 =>
      have hmem : line ∈ out.stdout.filter fun l2 => containsPat marker l2 :=
        List.mem_filter.mpr ⟨hline, hcont⟩
      have hnn : takeBytes line 12 ≠ none := by
        intro hnone
        have hcontra : sliceAll (out.stdout.filter fun line => containsPat marker line) = none :=
          (sliceAll_none_iff _).mpr ⟨line, hmem, hnone⟩
        rw [hsl] at hcontra
        exact Option.noConfusion hcontra
      cases hq : takeBytes line 12 with
      | none => exact absurd hq hnn
      | some p =>
        obtain ⟨k, hk⟩ := (takeBytes_isSome_iff line 12).mp ⟨p, hq⟩
        have hle := utf8Len_take_le line k
        omega

/-- Witness for `filter_command_output_partiality`: a successful command
whose only stdout line is the 8-byte string `dns-test` (which contains the
marker but is shorter than 12 bytes) makes the utility panic. -/
theorem filter_command_output_partiality_witness :
    filter_command_output "docker" ⟨true, "exit status: 0", [marker], ""⟩ =
      Except.error PurgeErr.panicked :=
  (filter_command_output_partiality "docker"
    ⟨true, "exit status: 0", [marker], ""⟩ rfl).1.mpr
    ⟨marker, by simp, by decide, by
      rintro ⟨k, hk⟩
      have hle := utf8Len_take_le marker k
      rw [hk] at hle
      have h8 : utf8Len marker = 8 := by decide
      omega⟩

/-- C8: the cleanup utility with no argument cleans containers then
networks; with `network` it cleans only networks and with `container` only
containers; any other argument yields the distinct `Unexpected argument`
error, removes nothing, and exits with status 1; a cleaned kind with no
matching resource prints `No <kind> to be removed`; and any underlying
docker command failure — `docker ps`, `docker network ls`, `docker rm -f`
or `docker network rm`, in every mode that reaches that command — turns
into exit status 1 with that command's stderr surfaced at the end of the
error message (the phase-error lifting conjuncts propagate each failing
phase into `run`/`main` for every selecting argument, and the per-command
conjuncts produce the phase error with that command's stderr). -/
theorem run_cli_spec (w : DockerWorld) :
    (∀ e1 e2, cleanContainersRun w = Except.ok e1 →
      cleanNetworksRun w = Except.ok e2 → run [] w = Except.ok (e1 ++ e2)) ∧
    (run ["network"] w = cleanNetworksRun w ∧
      ∀ evs, cleanNetworksRun w = Except.ok evs →
        ∀ hs, Event.dockerRmContainers hs ∉ evs) ∧
    (run ["container"] w = cleanContainersRun w ∧
      ∀ evs, cleanContainersRun w = Except.ok evs →
        ∀ hs, Event.dockerRmNetworks hs ∉ evs) ∧
    (∀ arg, arg ≠ "network" → arg ≠ "container" →
      run [arg] w =
        Except.error (PurgeErr.ioError ("Unexpected argument `" ++ arg ++ "`")) ∧
      mainRun [arg] w =
        some (1, [Event.eprintLine ("Unexpected argument `" ++ arg ++ "`")])) ∧
    (w.ps.success = true →
      w.ps.stdout.filter (fun line => containsPat marker line) = [] →
      cleanContainersRun w = Except.ok [Event.printLine "No containers to be removed"]) ∧
    (w.networkLs.success = true →
      w.networkLs.stdout.filter (fun line => containsPat marker line) = [] →
      cleanNetworksRun w = Except.ok [Event.printLine "No networks to be removed"]) ∧
    (w.ps.success = false →
      ∃ p, run ["container"] w = Except.error (PurgeErr.ioError (p ++ w.ps.stderr)) ∧
        mainRun ["container"] w =
          some (1, [Event.eprintLine (p ++ w.ps.stderr)])) ∧
    (∀ msg, cleanContainersRun w = Except.error (PurgeErr.ioError msg) →
      run ["container"] w = Except.error (PurgeErr.ioError msg) ∧
      run [] w = Except.error (PurgeErr.ioError msg) ∧
      mainRun ["container"] w = some (1, [Event.eprintLine msg]) ∧
      mainRun [] w = some (1, [Event.eprintLine msg])) ∧
    (∀ msg, cleanNetworksRun w = Except.error (PurgeErr.ioError msg) →
      run ["network"] w = Except.error (PurgeErr.ioError msg) ∧
      mainRun ["network"] w = some (1, [Event.eprintLine msg]) ∧
      ∀ e1, cleanContainersRun w = Except.ok e1 →
        run [] w = Except.error (PurgeErr.ioError msg) ∧
        mainRun [] w = some (1, [Event.eprintLine msg])) ∧
    ((w.ps.success = false →
      ∃ p, cleanContainersRun w =
        Except.error (PurgeErr.ioError (p ++ w.ps.stderr))) ∧
    (w.networkLs.success = false →
      ∃ p, cleanNetworksRun w =
        Except.error (PurgeErr.ioError (p ++ w.networkLs.stderr)))) ∧
    ((∀ hashes, filter_command_output "docker" w.ps = Except.ok hashes →
      hashes ≠ [] → (w.rmContainers hashes).success = false →
      ∃ p, cleanContainersRun w =
        Except.error (PurgeErr.ioError (p ++ (w.rmContainers hashes).stderr))) ∧
    (∀ hashes, filter_command_output "docker" w.networkLs = Except.ok hashes →
      hashes ≠ [] → (w.rmNetworks hashes).success = false →
      ∃ p, cleanNetworksRun w =
        Except.error (PurgeErr.ioError (p ++ (w.rmNetworks hashes).stderr)))) := by
  refine ⟨?_, ⟨rfl, ?_⟩, ⟨rfl, ?_⟩, ?_, ?_, ?_, ?_, ?_, ?_, ⟨?_, ?_⟩, ⟨?_, ?_⟩⟩
  · intro e1 e2 h1 h2
    simp [run, h1, h2]
  · intro evs hevs hs2 hmem
    cases hf : filter_command_output "docker" w.networkLs with
    | error e =>
      simp only [cleanNetworksRun, hf] at hevs
      exact Except.noConfusion hevs
    | ok hashes =>
      simp only [cleanNetworksRun, hf] at hevs
      by_cases hemp : hashes.isEmpty
      · rw [if_pos hemp] at hevs
        injection hevs with h3
        subst h3
        simp at hmem
      · rw [if_neg hemp] at hevs
        cases hr : run_command "docker" (w.rmNetworks hashes) with
        | error e => rw [hr] at hevs; exact Except.noConfusion hevs
        | ok out =>
          rw [hr] at hevs
          injection hevs with h3
          subst h3
          simp at hmem
  · intro evs hevs hs2 hmem
    cases hf : filter_command_output "docker" w.ps with
    | error e =>
      simp only [cleanContainersRun, hf] at hevs
      exact Except.noConfusion hevs
    | ok hashes =>
      simp only [cleanContainersRun, hf] at hevs
      by_cases hemp : hashes.isEmpty
      · rw [if_pos hemp] at hevs
        injection hevs with h3
        subst h3
        simp at hmem
      · rw [if_neg hemp] at hevs
        cases hr : run_command "docker" (w.rmContainers hashes) with
        | error e => rw [hr] at hevs; exact Except.noConfusion hevs
        | ok out =>
          rw [hr] at hevs
          injection hevs with h3
          subst h3
          simp at hmem
  · intro arg hn1 hn2
    constructor
    · simp [run, hn1, hn2]
    · simp [mainRun, run, hn1, hn2]
  · intro hsucc hfilter
    have hrun : run_command "docker" w.ps = Except.ok w.ps := by
      simp [run_command, hsucc]
    simp [cleanContainersRun, filter_command_output, hrun, hfilter, sliceAll]
  · intro hsucc hfilter
    have hrun : run_command "docker" w.networkLs = Except.ok w.networkLs := by
      simp [run_command, hsucc]
    simp [cleanNetworksRun, filter_command_output, hrun, hfilter, sliceAll]
  · intro hfail
    refine ⟨"command \"" ++ "docker" ++ "\" exited with status-code " ++
      w.ps.statusRepr ++ ", stderr:\n", ?_, ?_⟩
    · show cleanContainersRun w = _
      simp [cleanContainersRun, filter_command_output, run_command, hfail]
    · show (match cleanContainersRun w with
        | Except.ok events => some ((0 : Nat), events)
        | Except.error (PurgeErr.ioError msg) => some (1, [Event.eprintLine msg])
        | Except.error PurgeErr.panicked => none) = _
      simp [cleanContainersRun, filter_command_output, run_command, hfail]
  · intro msg hmsg
    refine ⟨?_, ?_, ?_, ?_⟩
    · exact hmsg
    · simp [run, hmsg]
    · simp [mainRun, run, hmsg]
    · simp [mainRun, run, hmsg]
  · intro msg hmsg
    refine ⟨?_, ?_, ?_⟩
    · exact hmsg
    · simp [mainRun, run, hmsg]
    · intro e1 h1
      exact ⟨by simp [run, h1, hmsg], by simp [mainRun, run, h1, hmsg]⟩
  · intro hfail
    refine ⟨"command \"" ++ "docker" ++ "\" exited with status-code " ++
      w.ps.statusRepr ++ ", stderr:\n", ?_⟩
    simp [cleanContainersRun, filter_command_output, run_command, hfail]
  · intro hfail
    refine ⟨"command \"" ++ "docker" ++ "\" exited with status-code " ++
      w.networkLs.statusRepr ++ ", stderr:\n", ?_⟩
    simp [cleanNetworksRun, filter_command_output, run_command, hfail]
  · intro hashes hfc hne hrm
    refine ⟨"command \"" ++ "docker" ++ "\" exited with status-code " ++
      (w.rmContainers hashes).statusRepr ++ ", stderr:\n", ?_⟩
    have hemp : hashes.isEmpty = false := by
      cases hashes with
      | nil => exact absurd rfl hne
      | cons a l => rfl
    simp [cleanContainersRun, hfc, hemp, run_command, hrm]
  · intro hashes hfc hne hrm
    refine ⟨"command \"" ++ "docker" ++ "\" exited with status-code " ++
      (w.rmNetworks hashes).statusRepr ++ ", stderr:\n", ?_⟩
    have hemp : hashes.isEmpty = false := by
      cases hashes with
      | nil => exact absurd rfl hne
      | cons a l => rfl
    simp [cleanNetworksRun, hfc, hemp, run_command, hrm]

/-- Witness for `run_cli_spec`: in a world where both listing commands
succeed with empty output, cleaning containers reports that there is nothing
to remove. -/
theorem run_cli_spec_witness :
    cleanContainersRun
      ⟨⟨true, "exit status: 0", [], ""⟩, ⟨true, "exit status: 0", [], ""⟩,
        (fun _ => ⟨true, "exit status: 0", [], ""⟩),
        (fun _ => ⟨true, "exit status: 0", [], ""⟩)⟩ =
      Except.ok [Event.printLine "No containers to be removed"] :=
  (run_cli_spec
    ⟨⟨true, "exit status: 0", [], ""⟩, ⟨true, "exit status: 0", [], ""⟩,
      (fun _ => ⟨true, "exit status: 0", [], ""⟩),
      (fun _ => ⟨true, "exit status: 0", [], ""⟩)⟩).2.2.2.2.1 rfl rfl

end Purge
